import Mathlib

/-!
# Verification of the alertbot core (candle store, price cache, analyzer, dispatcher)

Shallow embedding, over `ℚ`, of the data model and operations of the bot:

* `indicators.py`  — `CandleStorage.add_candle` / `get_candles`, `PriceCache.get/set`;
* `professional_analyzer.py` — `ProfessionalAnalyzer` (`analyze_pair`,
  `_determine_trend`, `_find_key_levels`, `_analyze_long`, `_analyze_short`,
  `_create_signal`, `_calculate_take_profits`, `_get_position_size`,
  `_calculate_rsi`, `_calculate_ema`, `_check_volume_decrease_on_red`,
  `_check_volume_decrease_on_green`, `_filter_levels`);
* `tasks.py` — `send_message_safe` and the cooldown logic of `signal_analyzer`.

Python numbers are modelled as exact rationals.  Runtime exceptions reachable
inside the analyzer's `try` block (`ZeroDivisionError` from `x / 0`,
`IndexError` from `filtered[0]` on an empty list) are modelled with
`Except Unit`; `analyze_pair` catches every exception and returns `None`,
which the embedding mirrors by mapping `.error` to `none`.  Python truthiness
(`if not best_support`, `if rsi_1h and rsi_4h`, `if ema_50 and ema_100`) is
modelled explicitly: `None` and `0.0` are falsy.
-/

/-- One OHLCV candle, as the dicts built in `indicators.py`
(`{'t': …, 'o': …, 'h': …, 'l': …, 'c': …, 'v': …}`). -/
structure Candle where
  t : ℚ
  o : ℚ
  h : ℚ
  l : ℚ
  c : ℚ
  v : ℚ
deriving DecidableEq, Repr

/-! ## Candle storage (`indicators.py`, class `CandleStorage`) -/

/-- The body of `CandleStorage.add_candle` acting on one series:
append, then truncate to the most recent 500 entries
(`self.candles[pair][tf] = self.candles[pair][tf][-500:]`). -/
def seriesAppend (s : List Candle) (cand : Candle) : List Candle :=
  let s2 := s ++ [cand]
  if 500 < s2.length then s2.drop (s2.length - 500) else s2

/-- `CandleStorage.candles`: a nested mapping (pair → timeframe → series),
empty by default (`defaultdict(lambda: defaultdict(list))`). -/
def CandleStorage : Type := String → String → List Candle

/-- The empty storage (fresh `CandleStorage()`). -/
def CandleStorage.empty : CandleStorage := fun _ _ => []

/-- `CandleStorage.add_candle(pair, tf, candle)`. -/
def CandleStorage.addCandle (st : CandleStorage) (pair tf : String) (cand : Candle) :
    CandleStorage :=
  fun p f => if p = pair ∧ f = tf then seriesAppend (st p f) cand else st p f

/-- `CandleStorage.get_candles(pair, tf)` (missing keys give `[]`). -/
def CandleStorage.getCandles (st : CandleStorage) (pair tf : String) : List Candle :=
  st pair tf

/-! ## Price cache (`indicators.py`, class `PriceCache`) -/

/-- `PriceCache`: `self.cache` maps a pair to `(price, volume, cached_at)`,
`self.ttl` is the time-to-live in seconds.  The wall clock (`time.time()`)
is passed explicitly to the operations. -/
structure PriceCache where
  cache : String → Option (ℚ × ℚ × ℚ)
  ttl : ℚ

/-- A fresh `PriceCache(ttl)` with an empty dict. -/
def PriceCache.init (ttl : ℚ) : PriceCache := ⟨fun _ => none, ttl⟩

/-- The module-level `PRICE_CACHE = PriceCache()`, with the default `ttl = 30`. -/
def PRICE_CACHE : PriceCache := PriceCache.init 30

/-- `PriceCache.get(pair)` at wall-clock time `now`: the cached tuple while
`now - cached_at < ttl`, otherwise `None`. -/
def PriceCache.get (pc : PriceCache) (pair : String) (now : ℚ) : Option (ℚ × ℚ) :=
  match pc.cache pair with
  | some (price, volume, cachedAt) =>
      if now - cachedAt < pc.ttl then some (price, volume) else none
  | none => none

/-- `PriceCache.set(pair, price, volume)` at wall-clock time `now`:
unconditionally overwrite the entry with `(price, volume, now)`. -/
def PriceCache.set (pc : PriceCache) (pair : String) (price volume now : ℚ) :
    PriceCache :=
  ⟨fun p => if p = pair then some (price, volume, now) else pc.cache p, pc.ttl⟩

/-! ## Throttled delivery (`tasks.py`, `send_message_safe`)

`send_message_safe` awaits `bot.send_message`; on `RetryAfter e` it sleeps
`e.timeout` seconds and re-invokes itself on the same message, on any other
`TelegramAPIError` it returns `False`, on success it returns `True`.  The
delivery collaborator is modelled as the sequence of outcomes it would
produce for the successive attempts; the result is the returned Boolean
together with the total time slept, or `none` when the outcome list is
exhausted while still throttled (the recursion would still be running). -/

/-- One outcome of a `bot.send_message` attempt. -/
inductive DeliveryOutcome where
  | delivered
  | throttled (timeout : ℚ)
  | apiFailure
deriving DecidableEq, Repr

/-- `send_message_safe`, driven by the successive outcomes of the delivery
collaborator.  Returns `(returned value, total seconds slept)`. -/
def sendMessageSafe : List DeliveryOutcome → Option (Bool × ℚ)
  | [] => none
  | .delivered :: _ => some (true, 0)
  | .apiFailure :: _ => some (false, 0)
  | .throttled timeout :: rest =>
      (sendMessageSafe rest).map (fun r => (r.1, timeout + r.2))

/-! ## Cooldown bookkeeping (`tasks.py`, `signal_analyzer`)

Per symbol, the loop keeps `LAST_SIGNALS[pair]`; a cycle at time `t` skips
the symbol while `t - LAST_SIGNALS[pair] < SIGNAL_COOLDOWN`, and after a
dispatch sets `LAST_SIGNALS[pair] = t`.  A cycle is modelled as
`(t, hasSignal)` where `hasSignal` abstracts "enough candles and the
analyzer returned a qualifying signal". -/

/-- One cycle of `signal_analyzer` for a fixed symbol: the cooldown check,
then (when a qualifying signal exists) the dispatch that updates
`LAST_SIGNALS`.  Returns the new `LAST_SIGNALS` entry and whether a
dispatch happened. -/
def dispatchStep (cooldown : ℚ) (lastSignal : Option ℚ) (t : ℚ) (hasSignal : Bool) :
    Option ℚ × Bool :=
  match lastSignal with
  | some last =>
      if t - last < cooldown then (some last, false)
      else if hasSignal then (some t, true) else (some last, false)
  | none => if hasSignal then (some t, true) else (none, false)

/-- Run `dispatchStep` over a whole sequence of cycles, collecting the cycle
times at which a dispatch happened, in order. -/
def dispatchTimes (cooldown : ℚ) (lastSignal : Option ℚ) :
    List (ℚ × Bool) → List ℚ
  | [] => []
  | (t, hasSignal) :: rest =>
      match dispatchStep cooldown lastSignal t hasSignal with
      | (lastSignal2, true) => t :: dispatchTimes cooldown lastSignal2 rest
      | (lastSignal2, false) => dispatchTimes cooldown lastSignal2 rest

/-! ## The analyzer (`professional_analyzer.py`, class `ProfessionalAnalyzer`) -/

/-- Division as Python evaluates it: `x / 0` raises `ZeroDivisionError`,
modelled as `Except.error ()`. -/
def qdiv (a b : ℚ) : Except Unit ℚ :=
  if b = 0 then .error () else .ok (a / b)

/-- Python truthiness of an optional float (`None` and `0.0` are falsy). -/
def truthy : Option ℚ → Bool
  | none => false
  | some x => x != 0

/-- `self.required_conditions['LONG']`. -/
def requiredLong : List String :=
  ["price_at_support", "support_level_works", "rsi_from_oversold",
   "volume_decreasing_on_red", "btc_not_falling"]

/-- `self.required_conditions['SHORT']`. -/
def requiredShort : List String :=
  ["price_at_resistance", "resistance_level_works", "rsi_from_overbought",
   "volume_decreasing_on_green", "btc_not_pumping"]

/-- Python `set(a) == set(b)` on lists of condition names. -/
def sameSet (a b : List String) : Bool :=
  a.all (fun x => b.contains x) && b.all (fun x => a.contains x)

/-- `_calculate_rsi(closes, period)` (the numpy variant of the analyzer):
`deltas = np.diff(closes)`, gains/losses split, means over the last
`period` entries, `None` when fewer than `period + 1` closes.  The guard
makes every division here denominator-nonzero, so no exception can occur. -/
def calculateRSI (closes : List ℚ) (period : ℕ) : Option ℚ :=
  if closes.length < period + 1 then none
  else
    let deltas := List.zipWith (fun b a => b - a) closes.tail closes
    let gains := deltas.map (fun d => if 0 < d then d else 0)
    let losses := deltas.map (fun d => if d < 0 then -d else 0)
    let gwin := gains.drop (gains.length - period)
    let lwin := losses.drop (losses.length - period)
    let avgGain := gwin.sum / (gwin.length : ℚ)
    let avgLoss := lwin.sum / (lwin.length : ℚ)
    if avgLoss = 0 then some 100
    else some (100 - 100 / (1 + avgGain / avgLoss))

/-- `_calculate_ema(values, period)`: seeded with `values[0]`, then
`ema = value * k + ema * (1 - k)` over the remaining values; `None` when
fewer than `period` values.  (With the periods used here, 50 and 100, the
guard makes `values[0]` safe.) -/
def calculateEMA (values : List ℚ) (period : ℕ) : Option ℚ :=
  if values.length < period then none
  else
    match values with
    | [] => none
    | v0 :: rest =>
        let k : ℚ := 2 / (period + 1)
        some (rest.foldl (fun ema value => value * k + ema * (1 - k)) v0)

/-- `_check_volume_decrease_on_red(candles)`: among the last 5 candles, the
red ones (`close < open`); `False` with fewer than 10 candles or fewer
than 2 red ones, else `volumes[-1] < volumes[0]` over the red candles. -/
def checkVolumeDecreaseOnRed (candles : List Candle) : Bool :=
  if candles.length < 10 then false
  else
    let reds := (candles.drop (candles.length - 5)).filter (fun cand => cand.c < cand.o)
    if reds.length < 2 then false
    else
      let volumes : List ℚ := reds.map (·.v)
      decide (volumes.getLastD 0 < volumes.headD 0)

/-- `_check_volume_decrease_on_green(candles)`: mirror of the red check with
green candles (`close > open`). -/
def checkVolumeDecreaseOnGreen (candles : List Candle) : Bool :=
  if candles.length < 10 then false
  else
    let greens := (candles.drop (candles.length - 5)).filter (fun cand => cand.o < cand.c)
    if greens.length < 2 then false
    else
      let volumes : List ℚ := greens.map (·.v)
      decide (volumes.getLastD 0 < volumes.headD 0)

/-- The `if ema_50 and ema_100 and closes[-1] > ema_50 and closes[-1] > ema_100`
test of `_determine_trend` (Python truthiness: a `None` or `0.0` EMA fails). -/
def emaBothBelow (ema50 ema100 : Option ℚ) (lastClose : ℚ) : Bool :=
  match ema50, ema100 with
  | some e50, some e100 =>
      e50 != 0 && e100 != 0 && decide (e50 < lastClose) && decide (e100 < lastClose)
  | _, _ => false

/-- The mirrored `closes[-1] < ema_50 and closes[-1] < ema_100` test. -/
def emaBothAbove (ema50 ema100 : Option ℚ) (lastClose : ℚ) : Bool :=
  match ema50, ema100 with
  | some e50, some e100 =>
      e50 != 0 && e100 != 0 && decide (lastClose < e50) && decide (lastClose < e100)
  | _, _ => false

/-- `_determine_trend(candles)`: price-structure counts over the last 10
highs/lows, RSI(14), EMA(50)/EMA(100), then at least 2 bull (resp. bear)
conditions give `'bullish'` (resp. `'bearish'`), else `'neutral'`. -/
def determineTrend (candles : List Candle) : String :=
  if candles.length < 20 then "neutral"
  else
    let closes := candles.map (·.c)
    let highs := candles.map (·.h)
    let lows := candles.map (·.l)
    let recentHighs := highs.drop (highs.length - 10)
    let recentLows := lows.drop (lows.length - 10)
    let higherHighs :=
      (List.zipWith (fun a b => decide (a < b)) recentHighs recentHighs.tail).count true
    let lowerLows :=
      (List.zipWith (fun a b => decide (b < a)) recentLows recentLows.tail).count true
    match calculateRSI closes 14 with
    | none => "neutral"
    | some rsi =>
        let ema50 := calculateEMA closes 50
        let ema100 := calculateEMA closes 100
        let lastClose := closes.getLastD 0
        let bullConditions :=
          (if 5 < higherHighs then 1 else 0) + (if 50 < rsi then 1 else 0)
            + (if emaBothBelow ema50 ema100 lastClose then 1 else 0)
        let bearConditions :=
          (if 5 < lowerLows then 1 else 0) + (if rsi < 50 then 1 else 0)
            + (if emaBothAbove ema50 ema100 lastClose then 1 else 0)
        if 2 ≤ bullConditions then "bullish"
        else if 2 ≤ bearConditions then "bearish"
        else "neutral"

/-! ### Key levels (`_find_key_levels`, `_filter_levels`)

The support loop and the resistance loop of `_find_key_levels` are verbatim
copies of each other modulo the extracted series (`lows` vs `highs`) and the
final comparison with `closes[-1]`; they are embedded as one parametric
loop `levelCandidates` applied twice. -/

/-- The volume test of one window index `j`:
`volumes[j] > np.mean(volumes[max(0, j-5):j])`.  `np.mean` of an empty
slice is `nan`, and `x > nan` is `False` in Python, so `j = 0` never
passes; a nonempty slice gives the arithmetic mean. -/
def volumeAboveMean (volumes : List ℚ) (j : ℕ) : Bool :=
  let window := (volumes.take j).drop (j - 5)
  !window.isEmpty && decide (window.sum / (window.length : ℚ) < volumes.getD j 0)

/-- One iteration of the inner bounce loop: `j` counts when
`abs(vals[j] - cur) / cur <= 0.02` and the volume test passes.  The
division raises `ZeroDivisionError` when the candidate value is `0`. -/
def bounceTest (vals volumes : List ℚ) (cur : ℚ) (j : ℕ) : Except Unit Bool := do
  let d ← qdiv |vals.getD j 0 - cur| cur
  if d ≤ 0.02 then pure (volumeAboveMean volumes j) else pure false

/-- The inner loop of `_find_key_levels`:
`for j in range(max(0, i-30), min(len(candles), i+30))`, counting the
indices that pass `bounceTest`. -/
def bounceCount (vals volumes : List ℚ) (cur : ℚ) (i : ℕ) : Except Unit ℕ :=
  (List.range' (i - 30) (min vals.length (i + 30) - (i - 30))).foldlM
    (fun acc j => do
      let b ← bounceTest vals volumes cur j
      pure (if b then acc + 1 else acc)) 0

/-- The outer loop of `_find_key_levels`:
`for i in range(20, len(candles)-10)`, appending `vals[i]` when
`bounce_count >= 2` and the `keep` comparison with `closes[-1]` holds. -/
def levelCandidates (vals volumes : List ℚ) (keep : ℚ → Bool) : Except Unit (List ℚ) :=
  (List.range' 20 (vals.length - 10 - 20)).foldlM
    (fun acc i => do
      let cur := vals.getD i 0
      let cnt ← bounceCount vals volumes cur i
      pure (if 2 ≤ cnt ∧ keep cur then acc ++ [cur] else acc)) []

/-- The support loop: support candidates are lows kept when below the
current close. -/
def supportCandidates (candles : List Candle) : Except Unit (List ℚ) :=
  let lastClose := (candles.map (·.c)).getLastD 0
  levelCandidates (candles.map (·.l)) (candles.map (·.v)) (fun cur => decide (cur < lastClose))

/-- The resistance loop: resistance candidates are highs kept when above the
current close. -/
def resistanceCandidates (candles : List Candle) : Except Unit (List ℚ) :=
  let lastClose := (candles.map (·.c)).getLastD 0
  levelCandidates (candles.map (·.h)) (candles.map (·.v)) (fun cur => decide (lastClose < cur))

/-- The mean of a nonempty group, `np.mean(current_group)`. -/
def groupMean (group : List ℚ) : ℚ := group.sum / (group.length : ℚ)

/-- The grouping loop of `_filter_levels`: walk the sorted levels, extending
the current group while the new level is within 2% of the group's first
member, else emitting the group's mean and starting a new group.  The
division is by `current_group[0]`, which may be `0`. -/
def groupLevels (pending : List ℚ) (grouped group : List ℚ) : Except Unit (List ℚ) :=
  match pending with
  | [] => pure (grouped ++ [groupMean group])
  | level :: rest => do
      let d ← qdiv |level - group.headD 0| (group.headD 0)
      if d ≤ 0.02 then groupLevels rest grouped (group ++ [level])
      else groupLevels rest (grouped ++ [groupMean group]) [level]

/-- `_filter_levels(levels, current_price)`: drop levels farther than 10%
from the current price, sort, then merge clusters within 2% of the
cluster's first member into their means.  `filtered[0]` raises
`IndexError` when the distance filter empties a nonempty `levels`. -/
def filterLevels (levels : List ℚ) (currentPrice : ℚ) : Except Unit (List ℚ) :=
  if levels.isEmpty then pure []
  else do
    let filtered ← levels.filterM (fun l => do
      let d ← qdiv |l - currentPrice| currentPrice
      pure (decide (d ≤ 0.1)))
    let sortedLevels := filtered.mergeSort (fun a b => decide (a ≤ b))
    match sortedLevels with
    | [] => .error ()
    | l0 :: rest => groupLevels rest [] [l0]

/-- `_find_key_levels(candles)`: `([], [])` with fewer than 50 candles, else
the two candidate loops followed by `_filter_levels` on each list. -/
def findKeyLevels (candles : List Candle) : Except Unit (List ℚ × List ℚ) :=
  if candles.length < 50 then pure ([], [])
  else do
    let supports ← supportCandidates candles
    let resistances ← resistanceCandidates candles
    let lastClose := (candles.map (·.c)).getLastD 0
    let supports2 ← filterLevels supports lastClose
    let resistances2 ← filterLevels resistances lastClose
    pure (supports2, resistances2)

/-! ### Signal construction (`_create_signal`, `_calculate_take_profits`,
`_get_position_size`) -/

/-- The signal dict returned by `_create_signal`.  The presentation-only
`logic` string (built by `_format_logic` with `%.2f` float rendering) is
not modelled; the condition names it is generated from are kept instead. -/
structure Signal where
  side : String
  pair : String
  entryZone : ℚ × ℚ
  stopLoss : ℚ
  takeProfit1 : ℚ
  takeProfit2 : ℚ
  takeProfit3 : ℚ
  confidence : ℕ
  positionSize : String
  currentPrice : ℚ
  level : ℚ
  conditionsMet : List String
deriving DecidableEq, Repr

/-- `_calculate_take_profits(side, current_price, level)`: three percentage
offsets from the current price (`+2.5% / +6% / +11%` for LONG,
`-2.5% / -6% / -11%` for SHORT). -/
def calculateTakeProfits (side : String) (currentPrice : ℚ) : ℚ × ℚ × ℚ :=
  if side = "LONG" then
    (currentPrice * 1.025, currentPrice * 1.06, currentPrice * 1.11)
  else
    (currentPrice * 0.975, currentPrice * 0.94, currentPrice * 0.89)

/-- `_get_position_size(conditions_count)`. -/
def getPositionSize (conditionsCount : ℕ) : String :=
  if conditionsCount = 5 then "15-20% депо"
  else if conditionsCount = 4 then "10-12% депо"
  else if conditionsCount = 3 then "5-8% депо"
  else "0% (сигнал не даётся)"

/-- `_create_signal(side, pair, current_price, level, conditions_met)`:
confidence is `20 × len(conditions_met)`, `+10` when all 5, capped at 100;
entry zone and stop-loss are percentage offsets from the level, the three
take-profits percentage offsets from the current price. -/
def createSignal (side pair : String) (currentPrice level : ℚ)
    (conditionsMet : List String) : Signal :=
  let confidence :=
    min (conditionsMet.length * 20 + if conditionsMet.length = 5 then 10 else 0) 100
  let entry : ℚ × ℚ × ℚ :=
    if side = "LONG" then (level * 0.995, level * 1.015, level * 0.985)
    else (level * 0.985, level * 1.005, level * 1.015)
  let tps := calculateTakeProfits side currentPrice
  { side := side
    pair := pair
    entryZone := (entry.1, entry.2.1)
    stopLoss := entry.2.2
    takeProfit1 := tps.1
    takeProfit2 := tps.2.1
    takeProfit3 := tps.2.2
    confidence := confidence
    positionSize := getPositionSize conditionsMet.length
    currentPrice := currentPrice
    level := level
    conditionsMet := conditionsMet }

/-! ### Directional evaluation (`_analyze_long`, `_analyze_short`) -/

/-- The nearest-support scan of `_analyze_long`: keep the highest support
that is below the current price with `(price - support) / price <= 0.015`.
The division happens for every support below the price, so `price = 0`
with such a support raises `ZeroDivisionError`. -/
def bestSupport (supports : List ℚ) (currentPrice : ℚ) : Except Unit (Option ℚ) :=
  supports.foldlM
    (fun best support =>
      if support < currentPrice then do
        let distancePct ← qdiv (currentPrice - support) currentPrice
        if distancePct ≤ 0.015 then
          match best with
          | none => pure (some support)
          | some b => pure (if b < support then some support else some b)
        else pure best
      else pure best) none

/-- The nearest-resistance scan of `_analyze_short`: keep the lowest
resistance above the current price with
`(resistance - price) / price <= 0.015`. -/
def bestResistance (resistances : List ℚ) (currentPrice : ℚ) : Except Unit (Option ℚ) :=
  resistances.foldlM
    (fun best resistance =>
      if currentPrice < resistance then do
        let distancePct ← qdiv (resistance - currentPrice) currentPrice
        if distancePct ≤ 0.015 then
          match best with
          | none => pure (some resistance)
          | some b => pure (if resistance < b then some resistance else some b)
        else pure best
      else pure best) none

/-- The RSI test of `_analyze_long`:
`rsi_1h and rsi_4h and 30 <= rsi_1h <= 45 and rsi_1h > rsi_4h`
(Python truthiness: a `None` or `0.0` RSI fails). -/
def rsiFromOversold (candles1h candles4h : List Candle) : Bool :=
  match calculateRSI (candles1h.map (·.c)) 14, calculateRSI (candles4h.map (·.c)) 14 with
  | some rsi1h, some rsi4h =>
      rsi1h != 0 && rsi4h != 0 && decide (30 ≤ rsi1h) && decide (rsi1h ≤ 45)
        && decide (rsi4h < rsi1h)
  | _, _ => false

/-- The RSI test of `_analyze_short`:
`rsi_1h and rsi_4h and 55 <= rsi_1h <= 70 and rsi_1h < rsi_4h`. -/
def rsiFromOverbought (candles1h candles4h : List Candle) : Bool :=
  match calculateRSI (candles1h.map (·.c)) 14, calculateRSI (candles4h.map (·.c)) 14 with
  | some rsi1h, some rsi4h =>
      rsi1h != 0 && rsi4h != 0 && decide (55 ≤ rsi1h) && decide (rsi1h ≤ 70)
        && decide (rsi1h < rsi4h)
  | _, _ => false

/-- The LONG condition list of `_analyze_long`, in append order:
`price_at_support` when `abs(price - support) / support <= 0.015`;
`support_level_works` unconditionally; `rsi_from_oversold` from the RSI
test; `volume_decreasing_on_red` from the volume check; `btc_not_falling`
unconditionally (the BTC check is a stub). -/
def longConditions (candles1h candles4h : List Candle) (currentPrice support : ℚ) :
    List String :=
  (if |currentPrice - support| / support ≤ 0.015 then ["price_at_support"] else [])
    ++ ["support_level_works"]
    ++ (if rsiFromOversold candles1h candles4h then ["rsi_from_oversold"] else [])
    ++ (if checkVolumeDecreaseOnRed candles1h then ["volume_decreasing_on_red"] else [])
    ++ ["btc_not_falling"]

/-- The SHORT condition list of `_analyze_short`: mirror of the LONG one,
with the overbought RSI test and green candles. -/
def shortConditions (candles1h candles4h : List Candle) (currentPrice resistance : ℚ) :
    List String :=
  (if |currentPrice - resistance| / resistance ≤ 0.015 then ["price_at_resistance"] else [])
    ++ ["resistance_level_works"]
    ++ (if rsiFromOverbought candles1h candles4h then ["rsi_from_overbought"] else [])
    ++ (if checkVolumeDecreaseOnGreen candles1h then ["volume_decreasing_on_green"] else [])
    ++ ["btc_not_pumping"]

/-- `_analyze_long(pair, candles_1h, candles_4h, trend_4h, trend_1d, supports)`.
`candles_1h[-1]['c']` raises `IndexError` on an empty list; the
`if not best_support` test is Python truthiness, so a best support of `0`
also yields `None` (in which branch the later division by `best_support`
is guaranteed nonzero).  The two trend arguments are accepted and unused,
as in the source. -/
def analyzeLong (pair : String) (candles1h candles4h : List Candle)
    (trend4h trend1d : String) (supports : List ℚ) : Except Unit (Option Signal) :=
  match (candles1h.map (·.c)).getLast? with
  | none => .error ()
  | some currentPrice => do
      let best ← bestSupport supports currentPrice
      match best with
      | none => pure none
      | some support =>
          if support = 0 then pure none
          else
            let conditionsMet := longConditions candles1h candles4h currentPrice support
            if sameSet conditionsMet requiredLong then
              pure (some (createSignal "LONG" pair currentPrice support conditionsMet))
            else pure none

/-- `_analyze_short(pair, candles_1h, candles_4h, trend_4h, trend_1d, resistances)`:
mirror of `analyzeLong`. -/
def analyzeShort (pair : String) (candles1h candles4h : List Candle)
    (trend4h trend1d : String) (resistances : List ℚ) : Except Unit (Option Signal) :=
  match (candles1h.map (·.c)).getLast? with
  | none => .error ()
  | some currentPrice => do
      let best ← bestResistance resistances currentPrice
      match best with
      | none => pure none
      | some resistance =>
          if resistance = 0 then pure none
          else
            let conditionsMet := shortConditions candles1h candles4h currentPrice resistance
            if sameSet conditionsMet requiredShort then
              pure (some (createSignal "SHORT" pair currentPrice resistance conditionsMet))
            else pure none

/-! ### The public entry point (`analyze_pair`) -/

/-- The SHORT section of `analyze_pair` (reached whenever the LONG section
did not return): run `_analyze_short` and keep its signal only when its
confidence reaches the 80% gate. -/
def analyzeShortGated (pair : String) (candles1h candles4h : List Candle)
    (trend4h trend1d : String) (resistances : List ℚ) : Except Unit (Option Signal) := do
  let shortSignal ← analyzeShort pair candles1h candles4h trend4h trend1d resistances
  match shortSignal with
  | some s => if 80 ≤ s.confidence then pure (some s) else pure none
  | none => pure none

/-- The body of `analyze_pair` inside its `try` block: the data-sufficiency
gate (50 1h / 50 4h / 30 1d candles), the trend computations (whose
results are passed on but unused), key levels, then LONG analysis gated
at 80% confidence and, when that produces nothing, SHORT analysis gated
the same way. -/
def analyzePairExc (pair : String) (candles1h candles4h candles1d : List Candle) :
    Except Unit (Option Signal) :=
  if candles1h.length < 50 ∨ candles4h.length < 50 ∨ candles1d.length < 30 then
    pure none
  else do
    let trend4h := determineTrend candles4h
    let trend1d := determineTrend candles1d
    let keyLevels ← findKeyLevels candles4h
    let longSignal ← analyzeLong pair candles1h candles4h trend4h trend1d keyLevels.1
    match longSignal with
    | some s =>
        if 80 ≤ s.confidence then pure (some s)
        else analyzeShortGated pair candles1h candles4h trend4h trend1d keyLevels.2
    | none => analyzeShortGated pair candles1h candles4h trend4h trend1d keyLevels.2

/-- `analyze_pair(pair, candles_1h, candles_4h, candles_1d)`: the `except`
clause turns any exception into `None`. -/
def analyzePair (pair : String) (candles1h candles4h candles1d : List Candle) :
    Option Signal :=
  match analyzePairExc pair candles1h candles4h candles1d with
  | .ok r => r
  | .error _ => none

/-! ## Theorems -/

/-! ### C3 — candle store capacity and FIFO eviction -/

lemma seriesAppend_step (ys : List Candle) (cand : Candle) :
    seriesAppend (ys.drop (ys.length - 500)) cand
      = (ys ++ [cand]).drop ((ys ++ [cand]).length - 500) := by
  simp only [seriesAppend, List.length_append, List.length_drop, List.length_singleton]
  by_cases hlen : ys.length < 500
  · rw [if_neg (by omega)]
    rw [show ys.length - 500 = 0 by omega]
    rw [show ys.length + 1 - 500 = 0 by omega]
    simp
  · rw [if_pos (by omega)]
    rw [show ys.length - (ys.length - 500) + 1 - 500 = 1 by omega]
    rw [List.drop_append_of_le_length (by rw [List.length_drop]; omega)]
    rw [List.drop_drop]
    rw [List.drop_append_of_le_length (by omega)]
    rw [show ys.length - 500 + 1 = ys.length + 1 - 500 by omega]

lemma seriesAppend_foldl (xs : List Candle) :
    List.foldl seriesAppend [] xs = xs.drop (xs.length - 500) := by
  induction xs using List.reverseRecOn with
  | nil => rfl
  | append_singleton ys cand ih =>
      rw [List.foldl_append, List.foldl_cons, List.foldl_nil, ih]
      exact seriesAppend_step ys cand

lemma storage_foldl_getCandles (pair tf : String) (st0 : CandleStorage)
    (xs : List Candle) :
    (List.foldl (fun st cand => st.addCandle pair tf cand) st0 xs).getCandles pair tf
      = List.foldl seriesAppend (st0.getCandles pair tf) xs := by
  induction xs generalizing st0 with
  | nil => rfl
  | cons cand rest ih =>
      rw [List.foldl_cons, List.foldl_cons, ih]
      congr 1
      show (st0.addCandle pair tf cand) pair tf = _
      unfold CandleStorage.addCandle
      rw [if_pos ⟨rfl, rfl⟩]
      rfl

/-- C3.  For every sequence of candles appended with `add_candle` to a fixed
`(pair, timeframe)` series of an initially empty store, the stored series
never exceeds 500 candles, and equals the suffix of the appended sequence
made of the most recently appended candles, in append order. -/
theorem candleStore_capacity_fifo (pair tf : String) (xs : List Candle) :
    ((List.foldl (fun st cand => st.addCandle pair tf cand) CandleStorage.empty
        xs).getCandles pair tf).length ≤ 500 ∧
    (List.foldl (fun st cand => st.addCandle pair tf cand) CandleStorage.empty
        xs).getCandles pair tf = xs.drop (xs.length - 500) ∧
    ((List.foldl (fun st cand => st.addCandle pair tf cand) CandleStorage.empty
        xs).getCandles pair tf).IsSuffix xs := by
  have h : (List.foldl (fun st cand => st.addCandle pair tf cand) CandleStorage.empty
      xs).getCandles pair tf = xs.drop (xs.length - 500) := by
    rw [storage_foldl_getCandles]
    exact seriesAppend_foldl xs
  refine ⟨?_, h, ?_⟩
  · rw [h, List.length_drop]
    omega
  · rw [h]
    exact List.drop_suffix _ _

/-! ### C8 — price cache TTL contract -/

/-- C8.  After `set(pair, price, volume)` at time `t`, `get(pair)` at time
`now` returns the tuple exactly when the elapsed time is strictly below the
TTL and absence otherwise; `set` overwrites the entry unconditionally with
the current time and touches no other key; a never-set entry reads as
absent; the module-level cache uses the default TTL of 30 seconds. -/
theorem priceCache_ttl_contract (pc : PriceCache) (pair : String)
    (price volume now t : ℚ) :
    ((pc.set pair price volume t).get pair now
        = if now - t < pc.ttl then some (price, volume) else none) ∧
    (pc.set pair price volume t).cache pair = some (price, volume, t) ∧
    (∀ q : String, q ≠ pair → (pc.set pair price volume t).cache q = pc.cache q) ∧
    (pc.cache pair = none → pc.get pair now = none) ∧
    PRICE_CACHE.ttl = 30 := by
  refine ⟨?_, ?_, ?_, ?_, rfl⟩
  · simp [PriceCache.get, PriceCache.set]
  · simp [PriceCache.set]
  · intro q hq
    simp [PriceCache.set, hq]
  · intro h
    simp [PriceCache.get, h]

theorem priceCache_ttl_contract_witness :
    ((PRICE_CACHE.set "BTCUSDT" 65000 1200 0).get "BTCUSDT" 5 = some (65000, 1200)) ∧
    ((PRICE_CACHE.set "BTCUSDT" 65000 1200 0).get "BTCUSDT" 31 = none) ∧
    ("ETHUSDT" ≠ "BTCUSDT") ∧
    ((PRICE_CACHE.set "BTCUSDT" 65000 1200 0).cache "ETHUSDT"
        = PRICE_CACHE.cache "ETHUSDT") := by
  have h5 := priceCache_ttl_contract PRICE_CACHE "BTCUSDT" 65000 1200 5 0
  have h31 := priceCache_ttl_contract PRICE_CACHE "BTCUSDT" 65000 1200 31 0
  refine ⟨?_, ?_, by decide, h5.2.2.1 "ETHUSDT" (by decide)⟩
  · rw [h5.1, if_pos (by norm_num [PRICE_CACHE, PriceCache.init])]
  · rw [h31.1, if_neg (by norm_num [PRICE_CACHE, PriceCache.init])]

/-! ### C6 — throttled delivery retry contract -/

/-- C6.  A successful attempt returns success with no waiting; a
non-throttling API failure returns failure immediately, with no retry and
no waiting; a throttling failure requesting `timeout` seconds makes the
sender wait exactly `timeout` and then perform a single retry of the same
message — the result is that single retry's outcome, with the wait added.
(The retry is itself a full `send_message_safe` call, so sustained
throttling recurses without bound, as flagged in the spec's §9.) -/
theorem sendMessageSafe_retry_contract (timeout : ℚ) (rest : List DeliveryOutcome) :
    sendMessageSafe (.delivered :: rest) = some (true, 0) ∧
    sendMessageSafe (.apiFailure :: rest) = some (false, 0) ∧
    sendMessageSafe (.throttled timeout :: rest)
      = (sendMessageSafe rest).map (fun r => (r.1, timeout + r.2)) :=
  ⟨rfl, rfl, rfl⟩

/-! ### C2 — confidence scoring -/

/-- C2.  The confidence of a signal built from `n` satisfied conditions is
`min (20 n + (10 if n = 5 else 0)) 100`; it is a multiple of 20, optionally
plus 10, lies in `[0, 100]`, is monotone in `n`, and equals exactly 100
when `n = 5`. -/
theorem createSignal_confidence (side pair : String) (currentPrice level : ℚ)
    (conds : List String) :
    (createSignal side pair currentPrice level conds).confidence
        = min (20 * conds.length + if conds.length = 5 then 10 else 0) 100 ∧
    (∃ k, (createSignal side pair currentPrice level conds).confidence = 20 * k ∨
      (createSignal side pair currentPrice level conds).confidence = 20 * k + 10) ∧
    (createSignal side pair currentPrice level conds).confidence ≤ 100 ∧
    (conds.length = 5 → (createSignal side pair currentPrice level conds).confidence = 100) ∧
    (∀ conds' : List String, conds.length ≤ conds'.length →
      (createSignal side pair currentPrice level conds).confidence
        ≤ (createSignal side pair currentPrice level conds').confidence) := by
  have h0 : ∀ cs : List String,
      (createSignal side pair currentPrice level cs).confidence
        = min (cs.length * 20 + if cs.length = 5 then 10 else 0) 100 := fun _ => rfl
  refine ⟨?_, ?_, ?_, ?_, ?_⟩
  · rw [h0]
    by_cases h : conds.length = 5 <;> simp [h] <;> omega
  · rw [h0]
    by_cases h : conds.length = 5
    · exact ⟨5, .inl (by simp [h])⟩
    · exact ⟨min conds.length 5, .inl (by simp [h]; omega)⟩
  · rw [h0]; omega
  · intro h
    rw [h0, h]
    decide
  · intro conds' hle
    rw [h0, h0]
    by_cases h1 : conds.length = 5 <;> by_cases h2 : conds'.length = 5 <;>
      simp [h1, h2] <;> omega

theorem createSignal_confidence_witness :
    ((["a", "b", "c"] : List String).length = 3) ∧
    ((["a", "b", "c", "d", "e"] : List String).length = 5) ∧
    (createSignal "LONG" "BTCUSDT" 100 99 ["a", "b", "c", "d", "e"]).confidence = 100 ∧
    (createSignal "LONG" "BTCUSDT" 100 99 ["a", "b", "c"]).confidence
      ≤ (createSignal "LONG" "BTCUSDT" 100 99 ["a", "b", "c", "d", "e"]).confidence := by
  have h := createSignal_confidence "LONG" "BTCUSDT" 100 99 ["a", "b", "c"]
  have h5 := createSignal_confidence "LONG" "BTCUSDT" 100 99 ["a", "b", "c", "d", "e"]
  exact ⟨rfl, rfl, h5.2.2.2.1 rfl, h.2.2.2.2 ["a", "b", "c", "d", "e"] (by decide)⟩

/-! ### C7 — take-profit offsets and ordering -/

/-- C7.  The three take-profits are percentage offsets of the current price
at +2.5% / +6% / +11% for LONG and −2.5% / −6% / −11% for SHORT; for a
positive current price the LONG take-profits are strictly increasing and
above the price, the SHORT ones strictly decreasing and below it. -/
theorem takeProfits_offsets_ordering (currentPrice : ℚ) (h : 0 < currentPrice) :
    calculateTakeProfits "LONG" currentPrice
        = (currentPrice * 1.025, currentPrice * 1.06, currentPrice * 1.11) ∧
    calculateTakeProfits "SHORT" currentPrice
        = (currentPrice * 0.975, currentPrice * 0.94, currentPrice * 0.89) ∧
    (currentPrice < (calculateTakeProfits "LONG" currentPrice).1 ∧
      (calculateTakeProfits "LONG" currentPrice).1
        < (calculateTakeProfits "LONG" currentPrice).2.1 ∧
      (calculateTakeProfits "LONG" currentPrice).2.1
        < (calculateTakeProfits "LONG" currentPrice).2.2) ∧
    ((calculateTakeProfits "SHORT" currentPrice).1 < currentPrice ∧
      (calculateTakeProfits "SHORT" currentPrice).2.1
        < (calculateTakeProfits "SHORT" currentPrice).1 ∧
      (calculateTakeProfits "SHORT" currentPrice).2.2
        < (calculateTakeProfits "SHORT" currentPrice).2.1) := by
  refine ⟨rfl, rfl, ⟨?_, ?_, ?_⟩, ⟨?_, ?_, ?_⟩⟩ <;>
    show _ < _ <;> simp [calculateTakeProfits] <;> nlinarith

theorem takeProfits_offsets_ordering_witness :
    (0 < (100 : ℚ)) ∧
    (100 : ℚ) < (calculateTakeProfits "LONG" 100).1 ∧
    (calculateTakeProfits "SHORT" 100).1 < (100 : ℚ) :=
  ⟨by norm_num,
   (takeProfits_offsets_ordering 100 (by norm_num)).2.2.1.1,
   (takeProfits_offsets_ordering 100 (by norm_num)).2.2.2.1⟩

/-! ### C1 — insufficient data yields absence -/

/-- C1.  With fewer than 50 1h candles, or fewer than 50 4h candles, or
fewer than 30 1d candles, `analyze_pair` returns `None`, whatever the
candles contain. -/
theorem analyzePair_insufficient_data (pair : String)
    (candles1h candles4h candles1d : List Candle)
    (h : candles1h.length < 50 ∨ candles4h.length < 50 ∨ candles1d.length < 30) :
    analyzePair pair candles1h candles4h candles1d = none := by
  have hexc : analyzePairExc pair candles1h candles4h candles1d = .ok none := by
    unfold analyzePairExc
    rw [if_pos h]
    rfl
  unfold analyzePair
  rw [hexc]

theorem analyzePair_insufficient_data_witness :
    (([] : List Candle).length < 50 ∨ ([] : List Candle).length < 50 ∨
      ([] : List Candle).length < 30) ∧
    analyzePair "BTCUSDT" [] [] [] = none :=
  ⟨Or.inl (by decide),
   analyzePair_insufficient_data "BTCUSDT" [] [] [] (Or.inl (by decide))⟩

/-! ### C4 — cooldown law of the dispatch loop -/

lemma dispatchTimes_lower_bound (cooldown : ℚ) (hcd : 0 ≤ cooldown)
    (trace : List (ℚ × Bool)) :
    ∀ T : ℚ, ∀ d ∈ dispatchTimes cooldown (some T) trace, T + cooldown ≤ d := by
  induction trace with
  | nil => intro T d hd; simp [dispatchTimes] at hd
  | cons ev rest ih =>
      obtain ⟨t, hs⟩ := ev
      intro T d hd
      by_cases hlt : t - T < cooldown
      · simp only [dispatchTimes, dispatchStep, if_pos hlt] at hd
        exact ih T d hd
      · cases hs with
        | true =>
            simp only [dispatchTimes, dispatchStep, if_neg hlt, if_pos rfl] at hd
            rcases List.mem_cons.mp hd with h | h
            · subst h; linarith
            · have := ih t d h
              linarith
        | false =>
            simp only [dispatchTimes, dispatchStep, if_neg hlt] at hd
            exact ih T d hd

lemma dispatchTimes_pairwise (cooldown : ℚ) (hcd : 0 ≤ cooldown)
    (trace : List (ℚ × Bool)) :
    ∀ lastSignal : Option ℚ,
      List.Pairwise (fun a b => a + cooldown ≤ b)
        (dispatchTimes cooldown lastSignal trace) := by
  induction trace with
  | nil => intro lastSignal; simp [dispatchTimes]
  | cons ev rest ih =>
      obtain ⟨t, hs⟩ := ev
      intro lastSignal
      cases lastSignal with
      | none =>
          cases hs with
          | true =>
              simp only [dispatchTimes, dispatchStep, if_pos rfl]
              exact List.Pairwise.cons
                (fun d hd => dispatchTimes_lower_bound cooldown hcd rest t d hd)
                (ih (some t))
          | false =>
              simp only [dispatchTimes, dispatchStep]
              exact ih none
      | some T =>
          by_cases hlt : t - T < cooldown
          · simp only [dispatchTimes, dispatchStep, if_pos hlt]
            exact ih (some T)
          · cases hs with
            | true =>
                simp only [dispatchTimes, dispatchStep, if_neg hlt, if_pos rfl]
                exact List.Pairwise.cons
                  (fun d hd => dispatchTimes_lower_bound cooldown hcd rest t d hd)
                  (ih (some t))
            | false =>
                simp only [dispatchTimes, dispatchStep, if_neg hlt]
                exact ih (some T)

/-- C4.  For a nonnegative cooldown, along any sequence of analysis cycles
for one symbol: (i) any two dispatches are separated by at least the
cooldown — once a dispatch happens at cycle time `T`, no later dispatch
happens at any cycle time below `T + cooldown`, however many qualifying
signals the analyzer produces in between; (ii) the `LAST_SIGNALS`
timestamp, once set, only moves forward. -/
theorem dispatch_cooldown_law (cooldown : ℚ) (trace : List (ℚ × Bool))
    (hcd : 0 ≤ cooldown) :
    List.Pairwise (fun a b => a + cooldown ≤ b)
      (dispatchTimes cooldown none trace) ∧
    (∀ (lastT t : ℚ) (hasSignal : Bool) (newT : ℚ),
      (dispatchStep cooldown (some lastT) t hasSignal).1 = some newT →
      lastT ≤ newT) := by
  refine ⟨dispatchTimes_pairwise cooldown hcd trace none, ?_⟩
  intro lastT t hasSignal newT hstep
  by_cases hlt : t - lastT < cooldown
  · simp only [dispatchStep, if_pos hlt] at hstep
    injection hstep with h
    subst h
    exact le_rfl
  · cases hasSignal with
    | true =>
        simp only [dispatchStep, if_neg hlt, if_pos rfl] at hstep
        injection hstep with h
        subst h
        linarith
    | false =>
        simp only [dispatchStep, if_neg hlt] at hstep
        injection hstep with h
        subst h
        exact le_rfl

theorem dispatch_cooldown_law_witness :
    (0 ≤ (10 : ℚ)) ∧
    dispatchTimes 10 none [(0, true), (5, true), (12, true)] = [0, 12] ∧
    List.Pairwise (fun a b => a + (10 : ℚ) ≤ b)
      (dispatchTimes 10 none [(0, true), (5, true), (12, true)]) := by
  refine ⟨by norm_num, ?_, (dispatch_cooldown_law 10 _ (by norm_num)).1⟩
  norm_num [dispatchTimes, dispatchStep]

/-! ### C10 — every emitted signal has confidence exactly 100 -/

lemma except_ok_bind {α β : Type} (a : α) (k : α → Except Unit β) :
    (Except.ok a >>= k) = k a := rfl

lemma except_error_bind {α β : Type} (u : Unit) (k : α → Except Unit β) :
    (Except.error u >>= k) = Except.error u := rfl

lemma except_pure_eq {α : Type} (a : α) : (pure a : Except Unit α) = Except.ok a := rfl

lemma longConditions_eq_of_sameSet (candles1h candles4h : List Candle)
    (currentPrice support : ℚ)
    (hss : sameSet (longConditions candles1h candles4h currentPrice support)
      requiredLong = true) :
    longConditions candles1h candles4h currentPrice support = requiredLong := by
  unfold longConditions at hss ⊢
  by_cases h1 : |currentPrice - support| / support ≤ 0.015 <;>
    cases h2 : rsiFromOversold candles1h candles4h <;>
    cases h3 : checkVolumeDecreaseOnRed candles1h <;>
    simp only [h1, h2, h3, if_true, if_false, ite_true, ite_false,
      Bool.false_eq_true, List.append_assoc, List.nil_append, List.cons_append,
      List.singleton_append, List.append_nil] at hss ⊢ <;>
    first
      | rfl
      | exact absurd hss (by decide)

lemma shortConditions_eq_of_sameSet (candles1h candles4h : List Candle)
    (currentPrice resistance : ℚ)
    (hss : sameSet (shortConditions candles1h candles4h currentPrice resistance)
      requiredShort = true) :
    shortConditions candles1h candles4h currentPrice resistance = requiredShort := by
  unfold shortConditions at hss ⊢
  by_cases h1 : |currentPrice - resistance| / resistance ≤ 0.015 <;>
    cases h2 : rsiFromOverbought candles1h candles4h <;>
    cases h3 : checkVolumeDecreaseOnGreen candles1h <;>
    simp only [h1, h2, h3, if_true, if_false, ite_true, ite_false,
      Bool.false_eq_true, List.append_assoc, List.nil_append, List.cons_append,
      List.singleton_append, List.append_nil] at hss ⊢ <;>
    first
      | rfl
      | exact absurd hss (by decide)

lemma analyzeLong_ok_some_confidence (pair : String) (candles1h candles4h : List Candle)
    (trend4h trend1d : String) (supports : List ℚ) (sig : Signal)
    (h : analyzeLong pair candles1h candles4h trend4h trend1d supports = .ok (some sig)) :
    sig.confidence = 100 := by
  unfold analyzeLong at h
  split at h
  · exact absurd h (by simp)
  · rename_i currentPrice heqLast
    rcases hbs : bestSupport supports currentPrice with e | best <;> rw [hbs] at h
    · exact absurd h (by simp [Bind.bind, Except.bind])
    · rw [except_ok_bind] at h
      split at h
      · exact absurd h (by simp [pure, Except.pure])
      · rename_i support
        split at h
        · exact absurd h (by simp [pure, Except.pure])
        · simp only [] at h
          split at h
          · rename_i hz hss
            rw [except_pure_eq] at h
            injection h with h2
            injection h2 with h3
            rw [← h3]
            rw [show createSignal "LONG" pair currentPrice support
                (longConditions candles1h candles4h currentPrice support)
                = createSignal "LONG" pair currentPrice support requiredLong by
              rw [longConditions_eq_of_sameSet _ _ _ _ hss]]
            rfl
          · exact absurd h (by simp [pure, Except.pure])

lemma analyzeShort_ok_some_confidence (pair : String) (candles1h candles4h : List Candle)
    (trend4h trend1d : String) (resistances : List ℚ) (sig : Signal)
    (h : analyzeShort pair candles1h candles4h trend4h trend1d resistances
      = .ok (some sig)) :
    sig.confidence = 100 := by
  unfold analyzeShort at h
  split at h
  · exact absurd h (by simp)
  · rename_i currentPrice heqLast
    rcases hbs : bestResistance resistances currentPrice with e | best <;> rw [hbs] at h
    · exact absurd h (by simp [Bind.bind, Except.bind])
    · rw [except_ok_bind] at h
      split at h
      · exact absurd h (by simp [pure, Except.pure])
      · rename_i resistance
        split at h
        · exact absurd h (by simp [pure, Except.pure])
        · simp only [] at h
          split at h
          · rename_i hz hss
            rw [except_pure_eq] at h
            injection h with h2
            injection h2 with h3
            rw [← h3]
            rw [show createSignal "SHORT" pair currentPrice resistance
                (shortConditions candles1h candles4h currentPrice resistance)
                = createSignal "SHORT" pair currentPrice resistance requiredShort by
              rw [shortConditions_eq_of_sameSet _ _ _ _ hss]]
            rfl
          · exact absurd h (by simp [pure, Except.pure])

lemma analyzeShortGated_ok_some_confidence (pair : String)
    (candles1h candles4h : List Candle) (trend4h trend1d : String)
    (resistances : List ℚ) (sig : Signal)
    (h : analyzeShortGated pair candles1h candles4h trend4h trend1d resistances
      = .ok (some sig)) :
    sig.confidence = 100 := by
  unfold analyzeShortGated at h
  rcases hs : analyzeShort pair candles1h candles4h trend4h trend1d resistances
      with e | shortSignal <;> rw [hs] at h
  · exact absurd h (by simp [Bind.bind, Except.bind])
  · rw [except_ok_bind] at h
    split at h
    · rename_i s
      split at h
      · rw [except_pure_eq] at h
        injection h with h2
        injection h2 with h3
        rw [← h3]
        exact analyzeShort_ok_some_confidence _ _ _ _ _ _ _ hs
      · exact absurd h (by simp [pure, Except.pure])
    · exact absurd h (by simp [pure, Except.pure])

lemma analyzePairExc_ok_some_confidence (pair : String)
    (candles1h candles4h candles1d : List Candle) (sig : Signal)
    (h : analyzePairExc pair candles1h candles4h candles1d = .ok (some sig)) :
    sig.confidence = 100 := by
  unfold analyzePairExc at h
  by_cases hlen : candles1h.length < 50 ∨ candles4h.length < 50 ∨ candles1d.length < 30
  · rw [if_pos hlen] at h
    exact absurd h (by simp [pure, Except.pure])
  · rw [if_neg hlen] at h
    rcases hkl : findKeyLevels candles4h with e | keyLevels <;> rw [hkl] at h
    · exact absurd h (by simp [Bind.bind, Except.bind])
    · rw [except_ok_bind] at h
      rcases hls : analyzeLong pair candles1h candles4h (determineTrend candles4h)
          (determineTrend candles1d) keyLevels.1 with e | longSignal <;> rw [hls] at h
      · exact absurd h (by simp [Bind.bind, Except.bind])
      · rw [except_ok_bind] at h
        split at h
        · rename_i s
          split at h
          · rw [except_pure_eq] at h
            injection h with h2
            injection h2 with h3
            rw [← h3]
            exact analyzeLong_ok_some_confidence _ _ _ _ _ _ _ hls
          · exact analyzeShortGated_ok_some_confidence _ _ _ _ _ _ _ h
        · exact analyzeShortGated_ok_some_confidence _ _ _ _ _ _ _ h

/-- C10.  Whenever `analyze_pair` returns a signal at all, that signal's
confidence is exactly 100: a signal is only constructed once the full
five-condition set of its side holds (two of the five are appended
unconditionally), and five conditions score `min(5·20 + 10, 100) = 100`,
so the 80% confidence gate never rejects a constructed signal. -/
theorem analyzePair_signal_confidence (pair : String)
    (candles1h candles4h candles1d : List Candle) :
    (analyzePair pair candles1h candles4h candles1d).all
      (fun sig => sig.confidence == 100) = true := by
  unfold analyzePair
  rcases hexc : analyzePairExc pair candles1h candles4h candles1d with e | r
  · rfl
  · cases r with
    | none => rfl
    | some sig =>
        have := analyzePairExc_ok_some_confidence pair candles1h candles4h candles1d sig hexc
        simp [Option.all, this]

/-! ### C9 — directional evaluation against the nearest qualifying level -/

lemma foldlM_ok_of_ok {α β : Type} (f : β → α → Except Unit β) (g : β → α → β) :
    ∀ (l : List α), (∀ acc x, x ∈ l → f acc x = .ok (g acc x)) →
      ∀ init : β, l.foldlM f init = .ok (l.foldl g init) := by
  intro l
  induction l with
  | nil => intro _ init; rfl
  | cons x xs ih =>
      intro hfg init
      rw [List.foldlM_cons, hfg init x (List.mem_cons_self x xs), except_ok_bind,
        List.foldl_cons]
      exact ih (fun acc y hy => hfg acc y (List.mem_cons_of_mem x hy)) (g init x)

/-- The pure residue of one step of the `bestSupport` scan (what the loop
body computes when the division cannot fail). -/
def bestSupportStep (currentPrice : ℚ) (best : Option ℚ) (support : ℚ) : Option ℚ :=
  if support < currentPrice ∧ (currentPrice - support) / currentPrice ≤ 0.015 then
    match best with
    | none => some support
    | some b => if b < support then some support else some b
  else best

/-- The pure residue of one step of the `bestResistance` scan. -/
def bestResistanceStep (currentPrice : ℚ) (best : Option ℚ) (resistance : ℚ) : Option ℚ :=
  if currentPrice < resistance ∧ (resistance - currentPrice) / currentPrice ≤ 0.015 then
    match best with
    | none => some resistance
    | some b => if resistance < b then some resistance else some b
  else best

lemma bestSupport_eq_foldl (supports : List ℚ) (currentPrice : ℚ)
    (hp : currentPrice ≠ 0) :
    bestSupport supports currentPrice
      = .ok (supports.foldl (bestSupportStep currentPrice) none) := by
  unfold bestSupport
  refine foldlM_ok_of_ok _ _ supports (fun acc s _ => ?_) none
  unfold bestSupportStep
  by_cases hs : s < currentPrice
  · rw [if_pos hs]
    rw [show qdiv (currentPrice - s) currentPrice
        = .ok ((currentPrice - s) / currentPrice) by unfold qdiv; rw [if_neg hp]]
    rw [except_ok_bind]
    by_cases hd : (currentPrice - s) / currentPrice ≤ 0.015
    · rw [if_pos hd, if_pos ⟨hs, hd⟩]
      cases acc <;> rfl
    · rw [if_neg hd, if_neg (fun hc => hd hc.2)]
      rfl
  · rw [if_neg hs, if_neg (fun hc => hs hc.1)]
    rfl

lemma bestSupportStep_none (p x : ℚ) :
    bestSupportStep p none x
      = if x < p ∧ (p - x) / p ≤ 0.015 then some x else none := by
  unfold bestSupportStep
  by_cases hq : x < p ∧ (p - x) / p ≤ 0.015
  · rw [if_pos hq]
  · rw [if_neg hq]

lemma bestSupportStep_some (p a x : ℚ) :
    bestSupportStep p (some a) x
      = if x < p ∧ (p - x) / p ≤ 0.015 then
          (if a < x then some x else some a)
        else some a := by
  unfold bestSupportStep
  by_cases hq : x < p ∧ (p - x) / p ≤ 0.015
  · rw [if_pos hq]
  · rw [if_neg hq]

lemma bestSupportStep_ge (p : ℚ) (a x : ℚ) :
    ∃ c, bestSupportStep p (some a) x = some c ∧ a ≤ c ∧
      (x < p → (p - x) / p ≤ 0.015 → x ≤ c) := by
  rw [bestSupportStep_some]
  by_cases hq : x < p ∧ (p - x) / p ≤ 0.015
  · rw [if_pos hq]
    by_cases hax : a < x
    · exact ⟨x, by rw [if_pos hax], le_of_lt hax, fun _ _ => le_rfl⟩
    · exact ⟨a, by rw [if_neg hax], le_rfl, fun _ _ => le_of_not_lt hax⟩
  · exact ⟨a, by rw [if_neg hq], le_rfl, fun h1 h2 => absurd ⟨h1, h2⟩ hq⟩

lemma foldl_bestSupportStep_spec (p : ℚ) (l : List ℚ) : ∀ acc : Option ℚ,
    (∀ b, l.foldl (bestSupportStep p) acc = some b →
      ((acc = some b ∨ (b ∈ l ∧ b < p ∧ (p - b) / p ≤ 0.015)) ∧
        (∀ s ∈ l, s < p → (p - s) / p ≤ 0.015 → s ≤ b) ∧
        (∀ a, acc = some a → a ≤ b))) ∧
    (l.foldl (bestSupportStep p) acc = none →
      acc = none ∧ ∀ s ∈ l, ¬(s < p ∧ (p - s) / p ≤ 0.015)) := by
  induction l with
  | nil =>
      intro acc
      refine ⟨fun b hb => ⟨Or.inl hb, fun s hs => absurd hs (List.not_mem_nil s), ?_⟩,
        fun hn => ⟨hn, fun s hs => absurd hs (List.not_mem_nil s)⟩⟩
      intro a ha
      simp only [List.foldl_nil] at hb
      rw [ha] at hb
      injection hb with hab
      exact le_of_eq hab
  | cons x xs ih =>
      intro acc
      rw [List.foldl_cons]
      constructor
      · intro b hb
        obtain ⟨hmem, hub, hmono⟩ := (ih (bestSupportStep p acc x)).1 b hb
        refine ⟨?_, ?_, ?_⟩
        · rcases hmem with hacc | ⟨hbx, hlt, hle⟩
          · by_cases hq : x < p ∧ (p - x) / p ≤ 0.015
            · cases acc with
              | none =>
                  rw [bestSupportStep_none, if_pos hq] at hacc
                  injection hacc with hxb
                  exact Or.inr ⟨hxb ▸ List.mem_cons_self x xs, hxb ▸ hq.1, hxb ▸ hq.2⟩
              | some a =>
                  rw [bestSupportStep_some, if_pos hq] at hacc
                  by_cases hax : a < x
                  · rw [if_pos hax] at hacc
                    injection hacc with hxb
                    exact Or.inr ⟨hxb ▸ List.mem_cons_self x xs, hxb ▸ hq.1, hxb ▸ hq.2⟩
                  · rw [if_neg hax] at hacc
                    exact Or.inl hacc
            · cases acc with
              | none =>
                  rw [bestSupportStep_none, if_neg hq] at hacc
                  exact Option.noConfusion hacc
              | some a =>
                  rw [bestSupportStep_some, if_neg hq] at hacc
                  exact Or.inl hacc
          · exact Or.inr ⟨List.mem_cons_of_mem x hbx, hlt, hle⟩
        · intro s hs hslt hsle
          rcases List.mem_cons.mp hs with hsx | hsxs
          · subst hsx
            cases acc with
            | none =>
                have hc : bestSupportStep p none s = some s := by
                  rw [bestSupportStep_none, if_pos ⟨hslt, hsle⟩]
                exact hmono s hc
            | some a =>
                obtain ⟨c, hc, _, hxc⟩ := bestSupportStep_ge p a s
                exact le_trans (hxc hslt hsle) (hmono c hc)
          · exact hub s hsxs hslt hsle
        · intro a ha
          subst ha
          obtain ⟨c, hc, hac, _⟩ := bestSupportStep_ge p a x
          exact le_trans hac (hmono c hc)
      · intro hn
        obtain ⟨hstep, htail⟩ := (ih (bestSupportStep p acc x)).2 hn
        have hq : ¬(x < p ∧ (p - x) / p ≤ 0.015) := by
          intro hq
          cases acc with
          | none =>
              rw [bestSupportStep_none, if_pos hq] at hstep
              exact Option.noConfusion hstep
          | some a =>
              rw [bestSupportStep_some, if_pos hq] at hstep
              by_cases hax : a < x
              · rw [if_pos hax] at hstep; exact Option.noConfusion hstep
              · rw [if_neg hax] at hstep; exact Option.noConfusion hstep
        have hacc : acc = none := by
          cases acc with
          | none => rfl
          | some a =>
              rw [bestSupportStep_some, if_neg hq] at hstep
              exact Option.noConfusion hstep
        refine ⟨hacc, fun s hs => ?_⟩
        rcases List.mem_cons.mp hs with hsx | hsxs
        · subst hsx; exact hq
        · exact htail s hsxs

lemma bestResistanceStep_none (p x : ℚ) :
    bestResistanceStep p none x
      = if p < x ∧ (x - p) / p ≤ 0.015 then some x else none := by
  unfold bestResistanceStep
  by_cases hq : p < x ∧ (x - p) / p ≤ 0.015
  · rw [if_pos hq]
  · rw [if_neg hq]

lemma bestResistanceStep_some (p a x : ℚ) :
    bestResistanceStep p (some a) x
      = if p < x ∧ (x - p) / p ≤ 0.015 then
          (if x < a then some x else some a)
        else some a := by
  unfold bestResistanceStep
  by_cases hq : p < x ∧ (x - p) / p ≤ 0.015
  · rw [if_pos hq]
  · rw [if_neg hq]

lemma bestResistanceStep_le (p : ℚ) (a x : ℚ) :
    ∃ c, bestResistanceStep p (some a) x = some c ∧ c ≤ a ∧
      (p < x → (x - p) / p ≤ 0.015 → c ≤ x) := by
  rw [bestResistanceStep_some]
  by_cases hq : p < x ∧ (x - p) / p ≤ 0.015
  · rw [if_pos hq]
    by_cases hax : x < a
    · exact ⟨x, by rw [if_pos hax], le_of_lt hax, fun _ _ => le_rfl⟩
    · exact ⟨a, by rw [if_neg hax], le_rfl, fun _ _ => le_of_not_lt hax⟩
  · exact ⟨a, by rw [if_neg hq], le_rfl, fun h1 h2 => absurd ⟨h1, h2⟩ hq⟩

lemma foldl_bestResistanceStep_spec (p : ℚ) (l : List ℚ) : ∀ acc : Option ℚ,
    (∀ b, l.foldl (bestResistanceStep p) acc = some b →
      ((acc = some b ∨ (b ∈ l ∧ p < b ∧ (b - p) / p ≤ 0.015)) ∧
        (∀ s ∈ l, p < s → (s - p) / p ≤ 0.015 → b ≤ s) ∧
        (∀ a, acc = some a → b ≤ a))) ∧
    (l.foldl (bestResistanceStep p) acc = none →
      acc = none ∧ ∀ s ∈ l, ¬(p < s ∧ (s - p) / p ≤ 0.015)) := by
  induction l with
  | nil =>
      intro acc
      refine ⟨fun b hb => ⟨Or.inl hb, fun s hs => absurd hs (List.not_mem_nil s), ?_⟩,
        fun hn => ⟨hn, fun s hs => absurd hs (List.not_mem_nil s)⟩⟩
      intro a ha
      simp only [List.foldl_nil] at hb
      rw [ha] at hb
      injection hb with hab
      exact le_of_eq hab.symm
  | cons x xs ih =>
      intro acc
      rw [List.foldl_cons]
      constructor
      · intro b hb
        obtain ⟨hmem, hlb, hmono⟩ := (ih (bestResistanceStep p acc x)).1 b hb
        refine ⟨?_, ?_, ?_⟩
        · rcases hmem with hacc | ⟨hbx, hlt, hle⟩
          · by_cases hq : p < x ∧ (x - p) / p ≤ 0.015
            · cases acc with
              | none =>
                  rw [bestResistanceStep_none, if_pos hq] at hacc
                  injection hacc with hxb
                  exact Or.inr ⟨hxb ▸ List.mem_cons_self x xs, hxb ▸ hq.1, hxb ▸ hq.2⟩
              | some a =>
                  rw [bestResistanceStep_some, if_pos hq] at hacc
                  by_cases hax : x < a
                  · rw [if_pos hax] at hacc
                    injection hacc with hxb
                    exact Or.inr ⟨hxb ▸ List.mem_cons_self x xs, hxb ▸ hq.1, hxb ▸ hq.2⟩
                  · rw [if_neg hax] at hacc
                    exact Or.inl hacc
            · cases acc with
              | none =>
                  rw [bestResistanceStep_none, if_neg hq] at hacc
                  exact Option.noConfusion hacc
              | some a =>
                  rw [bestResistanceStep_some, if_neg hq] at hacc
                  exact Or.inl hacc
          · exact Or.inr ⟨List.mem_cons_of_mem x hbx, hlt, hle⟩
        · intro s hs hslt hsle
          rcases List.mem_cons.mp hs with hsx | hsxs
          · subst hsx
            cases acc with
            | none =>
                have hc : bestResistanceStep p none s = some s := by
                  rw [bestResistanceStep_none, if_pos ⟨hslt, hsle⟩]
                exact hmono s hc
            | some a =>
                obtain ⟨c, hc, _, hxc⟩ := bestResistanceStep_le p a s
                exact le_trans (hmono c hc) (hxc hslt hsle)
          · exact hlb s hsxs hslt hsle
        · intro a ha
          subst ha
          obtain ⟨c, hc, hac, _⟩ := bestResistanceStep_le p a x
          exact le_trans (hmono c hc) hac
      · intro hn
        obtain ⟨hstep, htail⟩ := (ih (bestResistanceStep p acc x)).2 hn
        have hq : ¬(p < x ∧ (x - p) / p ≤ 0.015) := by
          intro hq
          cases acc with
          | none =>
              rw [bestResistanceStep_none, if_pos hq] at hstep
              exact Option.noConfusion hstep
          | some a =>
              rw [bestResistanceStep_some, if_pos hq] at hstep
              by_cases hax : x < a
              · rw [if_pos hax] at hstep; exact Option.noConfusion hstep
              · rw [if_neg hax] at hstep; exact Option.noConfusion hstep
        have hacc : acc = none := by
          cases acc with
          | none => rfl
          | some a =>
              rw [bestResistanceStep_some, if_neg hq] at hstep
              exact Option.noConfusion hstep
        refine ⟨hacc, fun s hs => ?_⟩
        rcases List.mem_cons.mp hs with hsx | hsxs
        · subst hsx; exact hq
        · exact htail s hsxs

lemma bestResistance_eq_foldl (resistances : List ℚ) (currentPrice : ℚ)
    (hp : currentPrice ≠ 0) :
    bestResistance resistances currentPrice
      = .ok (resistances.foldl (bestResistanceStep currentPrice) none) := by
  unfold bestResistance
  refine foldlM_ok_of_ok _ _ resistances (fun acc s _ => ?_) none
  unfold bestResistanceStep
  by_cases hs : currentPrice < s
  · rw [if_pos hs]
    rw [show qdiv (s - currentPrice) currentPrice
        = .ok ((s - currentPrice) / currentPrice) by unfold qdiv; rw [if_neg hp]]
    rw [except_ok_bind]
    by_cases hd : (s - currentPrice) / currentPrice ≤ 0.015
    · rw [if_pos hd, if_pos ⟨hs, hd⟩]
      cases acc <;> rfl
    · rw [if_neg hd, if_neg (fun hc => hd hc.2)]
      rfl
  · rw [if_neg hs, if_neg (fun hc => hs hc.1)]
    rfl

/-- The LONG evaluation that `analyze_pair` performs: key levels from the 4h
series, then `_analyze_long` against the detected supports. -/
def longEvaluated (pair : String) (candles1h candles4h candles1d : List Candle) :
    Except Unit (Option Signal) := do
  let keyLevels ← findKeyLevels candles4h
  analyzeLong pair candles1h candles4h (determineTrend candles4h)
    (determineTrend candles1d) keyLevels.1

/-- The SHORT evaluation that `analyze_pair` performs: key levels from the 4h
series, then `_analyze_short` against the detected resistances. -/
def shortEvaluated (pair : String) (candles1h candles4h candles1d : List Candle) :
    Except Unit (Option Signal) := do
  let keyLevels ← findKeyLevels candles4h
  analyzeShort pair candles1h candles4h (determineTrend candles4h)
    (determineTrend candles1d) keyLevels.2

/-- C9.  With a positive current price: the LONG side is evaluated against
the highest support that is below the current price and within 1.5% of it
(absence exactly when no support qualifies), and the SHORT side against the
lowest resistance that is above the current price and within 1.5% of it;
and on any fault-free analysis run with sufficient data, `analyze_pair`
returns a signal exactly when the LONG evaluation or the SHORT evaluation
produces one — so a symbol may qualify for neither, either, or both sides,
and the SHORT side matters precisely when the LONG side produces nothing. -/
theorem analyzer_directional_evaluation
    (supports resistances : List ℚ) (currentPrice : ℚ) (pair : String)
    (candles1h candles4h candles1d : List Candle) (r : Option Signal) :
    (0 < currentPrice → ∀ b, bestSupport supports currentPrice = .ok (some b) →
      b ∈ supports ∧ b < currentPrice ∧
        (currentPrice - b) / currentPrice ≤ 0.015 ∧
        ∀ s ∈ supports, s < currentPrice →
          (currentPrice - s) / currentPrice ≤ 0.015 → s ≤ b) ∧
    (0 < currentPrice → bestSupport supports currentPrice = .ok none →
      ∀ s ∈ supports,
        ¬(s < currentPrice ∧ (currentPrice - s) / currentPrice ≤ 0.015)) ∧
    (0 < currentPrice → ∀ b, bestResistance resistances currentPrice = .ok (some b) →
      b ∈ resistances ∧ currentPrice < b ∧
        (b - currentPrice) / currentPrice ≤ 0.015 ∧
        ∀ s ∈ resistances, currentPrice < s →
          (s - currentPrice) / currentPrice ≤ 0.015 → b ≤ s) ∧
    (0 < currentPrice → bestResistance resistances currentPrice = .ok none →
      ∀ s ∈ resistances,
        ¬(currentPrice < s ∧ (s - currentPrice) / currentPrice ≤ 0.015)) ∧
    (50 ≤ candles1h.length → 50 ≤ candles4h.length → 30 ≤ candles1d.length →
      analyzePairExc pair candles1h candles4h candles1d = .ok r →
      (r.isSome = true ↔
        ((∃ sig, longEvaluated pair candles1h candles4h candles1d = .ok (some sig)) ∨
         (∃ sig, shortEvaluated pair candles1h candles4h candles1d = .ok (some sig))))) := by
  refine ⟨?_, ?_, ?_, ?_, ?_⟩
  · intro hp b hb
    rw [bestSupport_eq_foldl supports currentPrice (ne_of_gt hp)] at hb
    injection hb with hb2
    obtain ⟨hmem, hub, _⟩ := (foldl_bestSupportStep_spec currentPrice supports none).1 b hb2
    rcases hmem with hcontra | ⟨hbmem, hblt, hble⟩
    · exact Option.noConfusion hcontra
    · exact ⟨hbmem, hblt, hble, hub⟩
  · intro hp hb
    rw [bestSupport_eq_foldl supports currentPrice (ne_of_gt hp)] at hb
    injection hb with hb2
    exact ((foldl_bestSupportStep_spec currentPrice supports none).2 hb2).2
  · intro hp b hb
    rw [bestResistance_eq_foldl resistances currentPrice (ne_of_gt hp)] at hb
    injection hb with hb2
    obtain ⟨hmem, hlb, _⟩ :=
      (foldl_bestResistanceStep_spec currentPrice resistances none).1 b hb2
    rcases hmem with hcontra | ⟨hbmem, hblt, hble⟩
    · exact Option.noConfusion hcontra
    · exact ⟨hbmem, hblt, hble, hlb⟩
  · intro hp hb
    rw [bestResistance_eq_foldl resistances currentPrice (ne_of_gt hp)] at hb
    injection hb with hb2
    exact ((foldl_bestResistanceStep_spec currentPrice resistances none).2 hb2).2
  · intro h1len h4len hdlen hexc
    unfold analyzePairExc at hexc
    rw [if_neg (by omega)] at hexc
    rcases hkl : findKeyLevels candles4h with e | keyLevels <;> rw [hkl] at hexc
    · exact absurd hexc (by simp [Bind.bind, Except.bind])
    · rw [except_ok_bind] at hexc
      have hlongEv : longEvaluated pair candles1h candles4h candles1d
          = analyzeLong pair candles1h candles4h (determineTrend candles4h)
            (determineTrend candles1d) keyLevels.1 := by
        unfold longEvaluated
        rw [hkl, except_ok_bind]
      have hshortEv : shortEvaluated pair candles1h candles4h candles1d
          = analyzeShort pair candles1h candles4h (determineTrend candles4h)
            (determineTrend candles1d) keyLevels.2 := by
        unfold shortEvaluated
        rw [hkl, except_ok_bind]
      rcases hls : analyzeLong pair candles1h candles4h (determineTrend candles4h)
          (determineTrend candles1d) keyLevels.1 with e | longSignal <;> rw [hls] at hexc
      · exact absurd hexc (by simp [Bind.bind, Except.bind])
      · rw [except_ok_bind] at hexc
        split at hexc
        · rename_i s
          have hconf := analyzeLong_ok_some_confidence _ _ _ _ _ _ _ hls
          rw [if_pos (by rw [hconf]; norm_num), except_pure_eq] at hexc
          injection hexc with hr
          subst hr
          exact ⟨fun _ => Or.inl ⟨s, by rw [hlongEv]; exact hls⟩, fun _ => rfl⟩
        · unfold analyzeShortGated at hexc
          rcases hss : analyzeShort pair candles1h candles4h (determineTrend candles4h)
              (determineTrend candles1d) keyLevels.2 with e | shortSignal <;>
            rw [hss] at hexc
          · exact absurd hexc (by simp [Bind.bind, Except.bind])
          · rw [except_ok_bind] at hexc
            split at hexc
            · rename_i s2
              have hconf2 := analyzeShort_ok_some_confidence _ _ _ _ _ _ _ hss
              rw [if_pos (by rw [hconf2]; norm_num), except_pure_eq] at hexc
              injection hexc with hr
              subst hr
              exact ⟨fun _ => Or.inr ⟨s2, by rw [hshortEv]; exact hss⟩, fun _ => rfl⟩
            · rw [except_pure_eq] at hexc
              injection hexc with hr
              subst hr
              constructor
              · intro habs
                exact absurd habs (by simp)
              · rintro (⟨sig, hsig⟩ | ⟨sig, hsig⟩)
                · rw [hlongEv, hls] at hsig
                  injection hsig with hsig2
                  exact Option.noConfusion hsig2
                · rw [hshortEv, hss] at hsig
                  injection hsig with hsig2
                  exact Option.noConfusion hsig2

/-! Auxiliary facts about a flat (constant) candle series, used to exhibit a
fault-free run of the full analysis pipeline. -/

/-- A constant candle: every price field is 100, the volume is 10. -/
def flatCandle : Candle := ⟨0, 100, 100, 100, 100, 10⟩

lemma replicate_getD (n j : ℕ) (a d : ℚ) (h : j < n) :
    (List.replicate n a).getD j d = a := by
  rw [List.getD_eq_getElem?_getD, List.getElem?_replicate, if_pos h]
  rfl

lemma foldl_const {α β : Type} (l : List α) (init : β) :
    l.foldl (fun acc _ => acc) init = init := by
  induction l with
  | nil => rfl
  | cons x xs ih => rw [List.foldl_cons]; exact ih

lemma volumeAboveMean_def (volumes : List ℚ) (j : ℕ) :
    volumeAboveMean volumes j
      = (!((volumes.take j).drop (j - 5)).isEmpty &&
          decide (((volumes.take j).drop (j - 5)).sum
            / (((volumes.take j).drop (j - 5)).length : ℚ) < volumes.getD j 0)) := rfl

lemma volumeAboveMean_const (n j : ℕ) (v : ℚ) (hj : j < n) :
    volumeAboveMean (List.replicate n v) j = false := by
  rw [volumeAboveMean_def, List.take_replicate, List.drop_replicate]
  rcases Nat.eq_zero_or_pos (j ⊓ n - (j - 5)) with hm | hm
  · rw [hm]
    rfl
  · rw [List.sum_replicate, List.length_replicate, replicate_getD n j v 0 hj]
    have hmean : ((j ⊓ n - (j - 5)) • v) / ((j ⊓ n - (j - 5) : ℕ) : ℚ) = v := by
      rw [nsmul_eq_mul]
      exact mul_div_cancel_left₀ v (by exact_mod_cast Nat.pos_iff_ne_zero.mp hm)
    rw [hmean]
    simp

lemma bounceTest_const (n j : ℕ) (c v : ℚ) (hc : c ≠ 0) (hj : j < n) :
    bounceTest (List.replicate n c) (List.replicate n v) c j = .ok false := by
  unfold bounceTest
  rw [replicate_getD n j c 0 hj]
  rw [show qdiv |c - c| c = .ok (|c - c| / c) by unfold qdiv; rw [if_neg hc]]
  rw [except_ok_bind]
  rw [if_pos (by rw [sub_self, abs_zero, zero_div]; norm_num)]
  rw [volumeAboveMean_const n j v hj]
  rfl

lemma bounceCount_const (n i : ℕ) (c v : ℚ) (hc : c ≠ 0) :
    bounceCount (List.replicate n c) (List.replicate n v) c i = .ok 0 := by
  unfold bounceCount
  rw [List.length_replicate]
  refine Eq.trans
    (foldlM_ok_of_ok _ (fun (acc : ℕ) _ => acc) _ (fun acc j hjmem => ?_) 0) ?_
  · have hj : j < n := by
      rcases List.mem_range'_1.mp hjmem with ⟨hle, hlt⟩
      omega
    rw [bounceTest_const n j c v hc hj, except_ok_bind]
    rfl
  · rw [foldl_const]

lemma levelCandidates_const (n : ℕ) (c v : ℚ) (keep : ℚ → Bool) (hc : c ≠ 0) :
    levelCandidates (List.replicate n c) (List.replicate n v) keep = .ok [] := by
  unfold levelCandidates
  rw [List.length_replicate]
  refine Eq.trans
    (foldlM_ok_of_ok _ (fun (acc : List ℚ) _ => acc) _ (fun acc i himem => ?_) []) ?_
  · have hi : i < n := by
      rcases List.mem_range'_1.mp himem with ⟨hle, hlt⟩
      omega
    show (do
        let cnt ← bounceCount (List.replicate n c) (List.replicate n v)
          ((List.replicate n c).getD i 0) i
        pure (if 2 ≤ cnt ∧ keep ((List.replicate n c).getD i 0) = true then
          acc ++ [(List.replicate n c).getD i 0] else acc)) = .ok acc
    rw [replicate_getD n i c 0 hi, bounceCount_const n i c v hc, except_ok_bind]
    rw [if_neg (fun hcontra => absurd hcontra.1 (by omega))]
    rfl
  · rw [foldl_const]

lemma supportCandidates_flat (n : ℕ) :
    supportCandidates (List.replicate n flatCandle) = .ok [] := by
  show levelCandidates ((List.replicate n flatCandle).map (·.l))
    ((List.replicate n flatCandle).map (·.v))
    (fun cur => decide (cur < ((List.replicate n flatCandle).map (·.c)).getLastD 0))
    = .ok []
  rw [List.map_replicate, List.map_replicate]
  exact levelCandidates_const n flatCandle.l flatCandle.v _ (by norm_num [flatCandle])

lemma resistanceCandidates_flat (n : ℕ) :
    resistanceCandidates (List.replicate n flatCandle) = .ok [] := by
  show levelCandidates ((List.replicate n flatCandle).map (·.h))
    ((List.replicate n flatCandle).map (·.v))
    (fun cur => decide (((List.replicate n flatCandle).map (·.c)).getLastD 0 < cur))
    = .ok []
  rw [List.map_replicate, List.map_replicate]
  exact levelCandidates_const n flatCandle.h flatCandle.v _ (by norm_num [flatCandle])

lemma findKeyLevels_flat :
    findKeyLevels (List.replicate 50 flatCandle) = .ok ([], []) := by
  unfold findKeyLevels
  rw [if_neg (by rw [List.length_replicate]; norm_num)]
  rw [supportCandidates_flat 50, except_ok_bind]
  rw [resistanceCandidates_flat 50, except_ok_bind]
  show (do
      let supports2 ← filterLevels []
        (((List.replicate 50 flatCandle).map (·.c)).getLastD 0)
      let resistances2 ← filterLevels []
        (((List.replicate 50 flatCandle).map (·.c)).getLastD 0)
      pure (supports2, resistances2) : Except Unit (List ℚ × List ℚ)) = .ok ([], [])
  rw [show filterLevels [] (((List.replicate 50 flatCandle).map (·.c)).getLastD 0)
      = .ok [] from rfl, except_ok_bind, except_ok_bind]
  rfl

lemma analyzeLong_no_supports (pair : String) (candles1h candles4h : List Candle)
    (trend4h trend1d : String) (p : ℚ)
    (hp : (candles1h.map (·.c)).getLast? = some p) :
    analyzeLong pair candles1h candles4h trend4h trend1d [] = .ok none := by
  unfold analyzeLong
  split
  · rename_i heq
    rw [hp] at heq
    exact Option.noConfusion heq
  · rename_i cp heq
    rw [show bestSupport [] cp = .ok none from rfl, except_ok_bind]
    rfl

lemma analyzeShort_no_resistances (pair : String) (candles1h candles4h : List Candle)
    (trend4h trend1d : String) (p : ℚ)
    (hp : (candles1h.map (·.c)).getLast? = some p) :
    analyzeShort pair candles1h candles4h trend4h trend1d [] = .ok none := by
  unfold analyzeShort
  split
  · rename_i heq
    rw [hp] at heq
    exact Option.noConfusion heq
  · rename_i cp heq
    rw [show bestResistance [] cp = .ok none from rfl, except_ok_bind]
    rfl

lemma analyzePairExc_flat :
    analyzePairExc "BTCUSDT" (List.replicate 50 flatCandle)
      (List.replicate 50 flatCandle) (List.replicate 30 flatCandle) = .ok none := by
  have hlast : ((List.replicate 50 flatCandle).map (·.c)).getLast? = some 100 := by
    rw [List.map_replicate, List.getLast?_replicate]
    norm_num [flatCandle]
  unfold analyzePairExc
  rw [if_neg (by norm_num)]
  rw [findKeyLevels_flat, except_ok_bind]
  rw [analyzeLong_no_supports _ _ _ _ _ 100 hlast, except_ok_bind]
  show analyzeShortGated _ _ _ _ _ _ = _
  unfold analyzeShortGated
  rw [analyzeShort_no_resistances _ _ _ _ _ 100 hlast, except_ok_bind]
  rfl

theorem analyzer_directional_evaluation_witness :
    (0 < (100 : ℚ)) ∧
    bestSupport [99] 100 = .ok (some 99) ∧
    ((99 : ℚ) ∈ [(99 : ℚ)] ∧ (99 : ℚ) < 100 ∧ ((100 : ℚ) - 99) / 100 ≤ 0.015 ∧
      ∀ s ∈ [(99 : ℚ)], s < 100 → (100 - s) / 100 ≤ 0.015 → s ≤ 99) ∧
    analyzePairExc "BTCUSDT" (List.replicate 50 flatCandle)
      (List.replicate 50 flatCandle) (List.replicate 30 flatCandle) = .ok none ∧
    ((none : Option Signal).isSome = true ↔
      ((∃ sig, longEvaluated "BTCUSDT" (List.replicate 50 flatCandle)
          (List.replicate 50 flatCandle) (List.replicate 30 flatCandle)
            = .ok (some sig)) ∨
       (∃ sig, shortEvaluated "BTCUSDT" (List.replicate 50 flatCandle)
          (List.replicate 50 flatCandle) (List.replicate 30 flatCandle)
            = .ok (some sig)))) := by
  have hbs : bestSupport [99] 100 = .ok (some 99) := by
    rw [bestSupport_eq_foldl [99] 100 (by norm_num)]
    rw [List.foldl_cons, List.foldl_nil, bestSupportStep_none, if_pos (by norm_num)]
  have hthm := analyzer_directional_evaluation [99] [] 100 "BTCUSDT"
    (List.replicate 50 flatCandle) (List.replicate 50 flatCandle)
    (List.replicate 30 flatCandle) none
  exact ⟨by norm_num, hbs, hthm.1 (by norm_num) 99 hbs, analyzePairExc_flat,
    hthm.2.2.2.2 (by rw [List.length_replicate]) (by rw [List.length_replicate])
      (by rw [List.length_replicate]) analyzePairExc_flat⟩

/-! ### C5 — key-level confirmation counts -/

/-- The pure residue of `bounceTest` when the candidate value is nonzero:
value within 2% of the candidate and volume above the mean of the up-to-5
preceding volumes. -/
def touchTest (vals volumes : List ℚ) (cur : ℚ) (j : ℕ) : Bool :=
  decide (|vals.getD j 0 - cur| / cur ≤ 0.02) && volumeAboveMean volumes j

/-- The number of window indices the detection loop actually counts for
candidate `i`: all `j` in `[i − 30, min(len, i + 30))` passing `touchTest`
— including `j = i`, the candidate's own candle. -/
def windowTouchCount (vals volumes : List ℚ) (i : ℕ) : ℕ :=
  (List.range' (i - 30) (min vals.length (i + 30) - (i - 30))).countP
    (fun j => touchTest vals volumes (vals.getD i 0) j)

/-- The count the claim describes: as `windowTouchCount`, but over candles
*distinct from the candidate's own* (`j ≠ i`). -/
def windowOtherTouchCount (vals volumes : List ℚ) (i : ℕ) : ℕ :=
  (List.range' (i - 30) (min vals.length (i + 30) - (i - 30))).countP
    (fun j => decide (j ≠ i) && touchTest vals volumes (vals.getD i 0) j)

lemma bounceTest_ok (vals volumes : List ℚ) (cur : ℚ) (j : ℕ) (hc : cur ≠ 0) :
    bounceTest vals volumes cur j = .ok (touchTest vals volumes cur j) := by
  unfold bounceTest touchTest
  rw [show qdiv |vals.getD j 0 - cur| cur = .ok (|vals.getD j 0 - cur| / cur) by
    unfold qdiv; rw [if_neg hc]]
  rw [except_ok_bind]
  by_cases hd : |vals.getD j 0 - cur| / cur ≤ 0.02
  · rw [if_pos hd, decide_eq_true hd, Bool.true_and]
    rfl
  · rw [if_neg hd, decide_eq_false hd, Bool.false_and]
    rfl

lemma foldl_count (p : ℕ → Bool) (l : List ℕ) :
    ∀ n : ℕ, l.foldl (fun acc j => if p j then acc + 1 else acc) n = n + l.countP p := by
  induction l with
  | nil => intro n; rw [List.foldl_nil, List.countP_nil]; omega
  | cons x xs ih =>
      intro n
      cases hx : p x with
      | true =>
          rw [List.foldl_cons, List.countP_cons, hx, if_pos rfl, ih, if_pos rfl]
          omega
      | false =>
          rw [List.foldl_cons, List.countP_cons, hx, if_neg (by simp), ih,
            if_neg (by simp)]
          omega

lemma bounceCount_ok (vals volumes : List ℚ) (cur : ℚ) (i : ℕ) (hc : cur ≠ 0) :
    bounceCount vals volumes cur i
      = .ok ((List.range' (i - 30) (min vals.length (i + 30) - (i - 30))).countP
          (fun j => touchTest vals volumes cur j)) := by
  unfold bounceCount
  refine Eq.trans (foldlM_ok_of_ok _
    (fun acc j => if touchTest vals volumes cur j then acc + 1 else acc) _
    (fun acc j _ => ?_) 0) ?_
  · rw [bounceTest_ok vals volumes cur j hc, except_ok_bind]
    rfl
  · rw [foldl_count]
    rw [Nat.zero_add]

lemma foldl_filterMap (q : ℕ → Bool) (f : ℕ → ℚ) (l : List ℕ) :
    ∀ acc : List ℚ,
      l.foldl (fun acc i => if q i then acc ++ [f i] else acc) acc
        = acc ++ (l.filter q).map f := by
  induction l with
  | nil => intro acc; rw [List.foldl_nil, List.filter_nil, List.map_nil, List.append_nil]
  | cons x xs ih =>
      intro acc
      cases hx : q x with
      | true =>
          rw [List.foldl_cons, List.filter_cons, hx, if_pos rfl, if_pos rfl, ih,
            List.map_cons, List.append_assoc]
          rfl
      | false =>
          rw [List.foldl_cons, List.filter_cons, hx, if_neg (by simp),
            if_neg (by simp), ih]

/-- Modelled from the claim's vocabulary (as amended): the levels the
detection loop keeps are exactly the values of interior candidates with at
least two counted touches in their window that also pass the `keep`
comparison against the latest close. -/
def keptLevels (vals volumes : List ℚ) (keep : ℚ → Bool) : List ℚ :=
  ((List.range' 20 (vals.length - 10 - 20)).filter
    (fun i => decide (2 ≤ windowTouchCount vals volumes i) && keep (vals.getD i 0))).map
    (fun i => vals.getD i 0)

lemma levelCandidates_ok (vals volumes : List ℚ) (keep : ℚ → Bool)
    (hnz : ∀ x ∈ vals, x ≠ 0) :
    levelCandidates vals volumes keep = .ok (keptLevels vals volumes keep) := by
  unfold levelCandidates keptLevels
  refine Eq.trans (foldlM_ok_of_ok _
    (fun acc i => if (decide (2 ≤ windowTouchCount vals volumes i)
        && keep (vals.getD i 0)) = true then acc ++ [vals.getD i 0] else acc) _
    (fun acc i himem => ?_) []) ?_
  · have hi : i < vals.length := by
      rcases List.mem_range'_1.mp himem with ⟨hle, hlt⟩
      omega
    have hmem : vals.getD i 0 ∈ vals := by
      rw [List.getD_eq_getElem?_getD, List.getElem?_eq_getElem hi]
      exact List.getElem_mem hi
    show (do
        let cnt ← bounceCount vals volumes (vals.getD i 0) i
        pure (if 2 ≤ cnt ∧ keep (vals.getD i 0) = true then
          acc ++ [vals.getD i 0] else acc)) = _
    rw [bounceCount_ok vals volumes (vals.getD i 0) i (hnz _ hmem), except_ok_bind]
    by_cases hq : 2 ≤ windowTouchCount vals volumes i ∧ keep (vals.getD i 0) = true
    · rw [if_pos (by exact ⟨hq.1, hq.2⟩)]
      show Except.ok (acc ++ [vals.getD i 0])
        = Except.ok (if (decide (2 ≤ windowTouchCount vals volumes i)
            && keep (vals.getD i 0)) = true then acc ++ [vals.getD i 0] else acc)
      rw [if_pos (by rw [decide_eq_true hq.1, Bool.true_and]; exact hq.2)]
    · rw [if_neg (by exact hq)]
      show Except.ok acc
        = Except.ok (if (decide (2 ≤ windowTouchCount vals volumes i)
            && keep (vals.getD i 0)) = true then acc ++ [vals.getD i 0] else acc)
      rw [if_neg (by
        intro hcontra
        simp only [Bool.and_eq_true, decide_eq_true_eq] at hcontra
        exact hq hcontra)]
  · rw [foldl_filterMap]
    rw [List.nil_append]

/-- The claim under test (C5, as frozen): an interior support candidate is
confirmed if and only if at least 2 candles *other than the candidate's
own* (`j ≠ i`) in its window pass the 2%-proximity-with-volume test.  The
code's loop also counts the candidate's own index, so this is refutable. -/
def claimedSupportConfirmation : Prop :=
  ∀ (candles : List Candle) (i cnt : ℕ), 50 ≤ candles.length → 20 ≤ i →
    i + 10 < candles.length →
    bounceCount (candles.map (·.l)) (candles.map (·.v))
      ((candles.map (·.l)).getD i 0) i = .ok cnt →
    (2 ≤ cnt ↔ 2 ≤ windowOtherTouchCount (candles.map (·.l)) (candles.map (·.v)) i)

/-- Filler candle of the counterexample series: low 200, volume 10. -/
def exCandle1 : Candle := ⟨0, 150, 200, 200, 150, 10⟩

/-- Touch candle of the counterexample series: low 100, volume 100. -/
def exCandle2 : Candle := ⟨0, 150, 200, 100, 150, 100⟩

/-- 50 candles; indices 20 and 25 carry the low-100/volume-100 candle, all
others the filler.  At candidate `i = 20` the code counts its own candle
(volume 100 above the mean 10 of the 5 preceding) and index 25, reaching
bounce count 2; only one *other* candle (index 25) qualifies. -/
def exCandles : List Candle :=
  (List.range 50).map (fun n => if n = 20 ∨ n = 25 then exCandle2 else exCandle1)

/-- The lows of `exCandles`. -/
def exLows : List ℚ :=
  (List.range 50).map (fun n => if n = 20 ∨ n = 25 then 100 else 200)

/-- The volumes of `exCandles`. -/
def exVols : List ℚ :=
  (List.range 50).map (fun n => if n = 20 ∨ n = 25 then 100 else 10)

set_option maxHeartbeats 4000000 in
lemma exWindowTouchCount : windowTouchCount exLows exVols 20 = 2 := by
  norm_num [windowTouchCount, touchTest, volumeAboveMean, exLows, exVols,
    List.range', List.range, List.range.loop, List.countP_cons, List.countP_nil]

set_option maxHeartbeats 4000000 in
lemma exWindowOtherTouchCount : windowOtherTouchCount exLows exVols 20 = 1 := by
  norm_num [windowOtherTouchCount, touchTest, volumeAboveMean, exLows, exVols,
    List.range', List.range, List.range.loop, List.countP_cons, List.countP_nil]

/-- C5, counterexample: the claimed "2 other candles" reading of the bounce
count is false on `exCandles` at candidate index 20 — the code confirms
(count 2, the candidate's own candle included) while only 1 other candle
qualifies. -/
theorem keyLevel_confirmation_counterexample : ¬ claimedSupportConfirmation := by
  intro hclaim
  have hlows : exCandles.map (·.l) = exLows := by decide
  have hvols : exCandles.map (·.v) = exVols := by decide
  have hcur : exLows.getD 20 0 = 100 := by decide
  have hbc2 : bounceCount exLows exVols (exLows.getD 20 0) 20 = .ok 2 := by
    rw [hcur, bounceCount_ok exLows exVols 100 20 (by norm_num)]
    have hconv : (List.range' (20 - 30) (min exLows.length (20 + 30) - (20 - 30))).countP
        (fun j => touchTest exLows exVols 100 j) = windowTouchCount exLows exVols 20 := by
      unfold windowTouchCount
      rw [hcur]
    rw [hconv, exWindowTouchCount]
  have h := hclaim exCandles 20 2 (by decide) (by norm_num) (by decide)
    (by rw [hlows, hvols]; exact hbc2)
  rw [hlows, hvols, exWindowOtherTouchCount] at h
  exact absurd (h.mp le_rfl) (by norm_num)

/-- C5 (as amended).  For candle values that cannot divide by zero, the
detection loops compute exactly: a support (resp. resistance) candidate at
interior index `i` is kept iff at least 2 candles in the window
`[i − 30, min(len, i + 30))` — *the candidate's own candle counting
toward the total* — have a low (resp. high) within 2% of the candidate's
and a volume above the mean of the up-to-5 preceding volumes (an index
with no preceding candle never counts), and the candidate's low is below
(resp. high above) the latest close; the kept levels are those candidates'
values in loop order. -/
theorem keyLevel_confirmation (candles : List Candle) :
    ((∀ cand ∈ candles, cand.l ≠ 0) →
      supportCandidates candles
        = .ok (keptLevels (candles.map (·.l)) (candles.map (·.v))
            (fun cur => decide (cur < (candles.map (·.c)).getLastD 0)))) ∧
    ((∀ cand ∈ candles, cand.h ≠ 0) →
      resistanceCandidates candles
        = .ok (keptLevels (candles.map (·.h)) (candles.map (·.v))
            (fun cur => decide ((candles.map (·.c)).getLastD 0 < cur)))) := by
  constructor
  · intro hnz
    show levelCandidates (candles.map (·.l)) (candles.map (·.v))
      (fun cur => decide (cur < (candles.map (·.c)).getLastD 0)) = _
    refine levelCandidates_ok _ _ _ (fun x hx => ?_)
    rcases List.mem_map.mp hx with ⟨cand, hcand, rfl⟩
    exact hnz cand hcand
  · intro hnz
    show levelCandidates (candles.map (·.h)) (candles.map (·.v))
      (fun cur => decide ((candles.map (·.c)).getLastD 0 < cur)) = _
    refine levelCandidates_ok _ _ _ (fun x hx => ?_)
    rcases List.mem_map.mp hx with ⟨cand, hcand, rfl⟩
    exact hnz cand hcand

theorem keyLevel_confirmation_witness :
    (∀ cand ∈ List.replicate 50 flatCandle, cand.l ≠ 0) ∧
    supportCandidates (List.replicate 50 flatCandle)
      = .ok (keptLevels ((List.replicate 50 flatCandle).map (·.l))
          ((List.replicate 50 flatCandle).map (·.v))
          (fun cur => decide
            (cur < ((List.replicate 50 flatCandle).map (·.c)).getLastD 0))) := by
  have hnz : ∀ cand ∈ List.replicate 50 flatCandle, cand.l ≠ 0 := fun cand hc => by
    rw [List.eq_of_mem_replicate hc]
    norm_num [flatCandle]
  exact ⟨hnz, (keyLevel_confirmation (List.replicate 50 flatCandle)).1 hnz⟩
